import Mathlib

/-!
Verification of the conversation extractor and ingestion pipeline
(`src/main.rs`, `src/cypher_writer.rs`) of google_voice_importer.

Shallow embedding conventions:
* An HTML document, as seen by `parse_file` through its fixed selectors, is
  modelled as a `Document`: the list of `.message` elements, each reduced to
  the data the selectors extract (first `.sender` child with its first
  `a.tel` href and first `span.fn, abbr.fn` text, the `title` attribute of
  the first `.dt`, the text of the first `q`), plus the text of the first
  `.tags` element.
* `chrono`'s `DateTime::parse_from_str` with the fixed format is an external
  library call; it is carried as an uninterpreted parameter
  `pf : String → Option Int` (an instant is an `Int`; the epoch-zero default
  is `0`).
* The `unwrap()` on a missing `.sender` element panics in Rust; the panic is
  modelled as `Except.error ParseErr.missingSender` (the document produces
  no `Thread`).
* `HashSet<Participant>` is modelled as a duplicate-free list built by
  insert-if-absent; the derived Rust `Eq`/`Hash` compare both `name` and
  `phone`, so equality of the Lean `Participant` structure matches it.
-/

/-- A conversation participant, as in `main.rs` (`struct Participant`).
Rust derives `PartialEq, Eq, Hash` on both fields. -/
structure Participant where
  name : String
  phone : String
deriving DecidableEq, Repr

/-- A single message, as in `main.rs` (`struct Message`); the Rust fields
`from` and `to` are Lean keywords, so they are named `sender` and
`recipients`. -/
structure Message where
  sender : Participant
  recipients : List Participant
  timestamp : Int
  content : String
deriving DecidableEq, Repr

/-- A parsed thread, as in `main.rs` (`struct Thread`). -/
structure Thread where
  messages : List Message
  participants : List Participant
  labels : List String
  message_count : Nat
deriving DecidableEq, Repr

/-- What the selectors extract from one `.sender` element: the `href` of its
first `a.tel` descendant (if that element and attribute exist) and the first
text node of its first `span.fn, abbr.fn` descendant. -/
structure SenderElem where
  telHref : Option String
  fn : Option String
deriving DecidableEq, Repr

/-- One `.message` element, reduced to what `parse_file` reads from it:
its first `.sender` child (absent models a block with no sender element),
the `title` attribute of its first `.dt` child, and the text of its first
`q` child. -/
structure MessageBlock where
  sender : Option SenderElem
  dtTitle : Option String
  content : Option String
deriving DecidableEq, Repr

/-- A whole document: the `.message` elements in document order and the text
of the first `.tags` element. -/
structure Document where
  blocks : List MessageBlock
  tags : Option String
deriving DecidableEq, Repr

/-- `href.strip_prefix("tel:")`: `some` of the remainder when the string
starts with the four characters `tel:`, otherwise `none` (spelled on the
character list so that concrete runs reduce). -/
def stripTel (s : String) : Option String :=
  match s.data with
  | 't' :: 'e' :: 'l' :: ':' :: rest => some (String.mk rest)
  | _ => none

/-- The phone number extracted from a sender element:
`...attr("href").and_then(strip_prefix("tel:")).unwrap_or("Unknown")`. -/
def extractPhone (se : SenderElem) : String :=
  (se.telHref.bind stripTel).getD "Unknown"

/-- The display name extracted from a sender element:
`...text().next().unwrap_or("")`. -/
def extractName (se : SenderElem) : String :=
  (se.fn).getD ""

/-- The participant a block's sender element denotes, when the block has a
sender element at all. -/
def blockParticipant (b : MessageBlock) : Option Participant :=
  b.sender.map (fun se => ⟨extractName se, extractPhone se⟩)

/-- The identifier a block's sender element denotes (with the `Unknown`
sentinel substituted when the href is absent or not `tel:`-shaped). -/
def blockPhone (b : MessageBlock) : Option String :=
  b.sender.map extractPhone

/-- The distinct identifiers referenced by a document's message blocks. -/
def documentIdentifiers (doc : Document) : List String :=
  (doc.blocks.filterMap blockPhone).dedup

/-- `HashSet::insert`: add an element unless an equal one is present. -/
def insertP (ps : List Participant) (p : Participant) : List Participant :=
  if p ∈ ps then ps else ps ++ [p]

/-- The parse failure of `parse_file`: a message block with no `.sender`
element (`select(&sender_selector).next().unwrap()` panics there). -/
inductive ParseErr where
  | missingSender
deriving DecidableEq, Repr

/-- First pass of `parse_file` over the message blocks: accumulate the
participant set and remember the most recent participant whose name is
exactly `"Me"`. -/
def firstPassAux : List MessageBlock → List Participant → Option Participant →
    Except ParseErr (List Participant × Option Participant)
  | [], ps, me => .ok (ps, me)
  | b :: bs, ps, me =>
    match b.sender with
    | none => .error ParseErr.missingSender
    | some se =>
      firstPassAux bs (insertP ps ⟨extractName se, extractPhone se⟩)
        (if extractName se = "Me" then some ⟨extractName se, extractPhone se⟩ else me)

/-- First pass of `parse_file`, started from the empty set. -/
def firstPass (bs : List MessageBlock) :
    Except ParseErr (List Participant × Option Participant) :=
  firstPassAux bs [] none

/-- The synthesized self participant (`unwrap_or_else` in `parse_file`). -/
def meDefault : Participant := ⟨"Me", "Unknown"⟩

/-- The resolved self participant of a document: the last participant whose
name was the self marker, or the synthesized default. -/
def resolvedSelf (doc : Document) : Participant :=
  match firstPass doc.blocks with
  | .ok (_, meOpt) => meOpt.getD meDefault
  | .error _ => meDefault

/-- Second pass of `parse_file`, on one block: extract the timestamp (epoch
zero on a missing or unparseable `title`), look the sender up by phone in
the resolved participant list (falling back to self), infer the recipients,
and take the content text (empty when absent). -/
def mkMessage (pf : String → Option Int) (ps : List Participant)
    (me : Participant) (b : MessageBlock) : Except ParseErr Message :=
  match b.sender with
  | none => .error ParseErr.missingSender
  | some se =>
    let timestamp := (b.dtTitle.bind pf).getD 0
    let phone := extractPhone se
    let sender := (ps.find? (fun p => p.phone == phone)).getD me
    let recips := if sender = me then ps.filter (fun p => p ≠ me) else [me]
    .ok (Message.mk sender recips timestamp ((b.content).getD ""))

/-- Monadic map over `Except`: stop at the first error
(`Iterator::collect` into a `Result` would do the same; here the closure
cannot fail after the first pass succeeded, which is proved, not assumed). -/
def mapExcept (f : α → Except ParseErr β) : List α → Except ParseErr (List β)
  | [] => .ok []
  | a :: as =>
    match f a with
    | .error e => .error e
    | .ok b =>
      match mapExcept f as with
      | .error e => .error e
      | .ok bs => .ok (b :: bs)

/-- `parse_labels`: text of the first `.tags` element, part after the first
colon, split on commas, trimmed, empties dropped. -/
def parse_labels (tags : Option String) : List String :=
  match tags with
  | none => []
  | some s =>
    ((((s.splitOn ":").getD 1 "").splitOn ",").map String.trim).filter
      (fun l => l ≠ "")

/-- `parse_file` on an already-read document: first pass resolves the
participant set and self, second pass builds the messages, labels are
extracted, and the thread is assembled with its recomputed message count. -/
def parse_file (pf : String → Option Int) (doc : Document) :
    Except ParseErr Thread :=
  match firstPass doc.blocks with
  | .error e => .error e
  | .ok (participants, meOpt) =>
    let me := meOpt.getD meDefault
    match mapExcept (mkMessage pf participants me) doc.blocks with
    | .error e => .error e
    | .ok messages =>
      .ok ⟨messages, participants, parse_labels doc.tags, messages.length⟩

/-!
The ingestion pipeline of `cypher_writer.rs`. `neo4j_writer` receives a
stream of threads (modelled as the list of values the channel delivers
before closing), pushes each onto `batch`, flushes with
`send_batch_to_neo4j` when `batch.len() >= THREAD_BATCH_SIZE`, clears the
batch on success, propagates the first error with `?`, and flushes any
non-empty remainder at stream end. `THREAD_BATCH_SIZE` is a constant of the
crate that is not in the two source files, so the batch bound `B` is a
parameter. The two `graph.run` calls are external; a `StoreEnv` gives, for
each batch, the error (if any) of each bulk query; the trace of issued
store operations is returned alongside the final batch contents and the
result.
-/

/-- A bulk store operation issued by `send_batch_to_neo4j`, with the batch
it was issued for: the participant upsert query or the message creation
query. The element type is abstract: the writer only pushes, measures and
clears. -/
inductive StoreOp (α : Type) where
  | participants (b : List α)
  | messages (b : List α)
deriving DecidableEq, Repr

/-- The store's behaviour: the error, if any, that each of the two bulk
queries returns when run on a given batch. -/
structure StoreEnv (α ε : Type) where
  partsErr : List α → Option ε
  msgsErr : List α → Option ε

/-- `send_batch_to_neo4j`: run the participant query; on error stop there
(`?`), otherwise run the message query. Returns the operations issued and
the error, if any. -/
def send_batch_to_neo4j (env : StoreEnv α ε) (b : List α) :
    List (StoreOp α) × Option ε :=
  match env.partsErr b with
  | some e => ([StoreOp.participants b], some e)
  | none =>
    match env.msgsErr b with
    | some e => ([StoreOp.participants b, StoreOp.messages b], some e)
    | none => ([StoreOp.participants b, StoreOp.messages b], none)

/-- The receive loop of `neo4j_writer`, with the current batch explicit.
Returns the issued operations, the final contents of `batch`, and the
result (`none` = `Ok(())`, `some e` = the propagated store error). -/
def writerAux (env : StoreEnv α ε) (B : Nat) :
    List α → List α → List (StoreOp α) × List α × Option ε
  | batch, [] =>
    if batch.isEmpty then ([], batch, none)
    else ((send_batch_to_neo4j env batch).1, batch, (send_batch_to_neo4j env batch).2)
  | batch, t :: ts =>
    if B ≤ (batch ++ [t]).length then
      match send_batch_to_neo4j env (batch ++ [t]) with
      | (ops, some e) => (ops, batch ++ [t], some e)
      | (ops, none) =>
        let rest := writerAux env B [] ts
        (ops ++ rest.1, rest.2.1, rest.2.2)
    else writerAux env B (batch ++ [t]) ts

/-- `neo4j_writer`: the receive loop started with an empty batch. -/
def neo4j_writer (env : StoreEnv α ε) (B : Nat) (stream : List α) :
    List (StoreOp α) × List α × Option ε :=
  writerAux env B [] stream

/-- Reference grouping of a stream into batches of `B` (bound reached ⇒ new
batch) with the non-empty remainder last. On its own this is only a
candidate description of the loop; the theorems below tie it to
`writerAux`: a successful run flushes exactly these batches, and a failing
run flushes a prefix of them up to the first failing batch. -/
def batcherAux (B : Nat) : List α → List α → List (List α)
  | batch, [] => if batch.isEmpty then [] else [batch]
  | batch, t :: ts =>
    if B ≤ (batch ++ [t]).length then (batch ++ [t]) :: batcherAux B [] ts
    else batcherAux B (batch ++ [t]) ts

/-- The reference batch sequence of a whole stream, related to
`neo4j_writer` by the success- and error-run theorems below. -/
def neo4jFlushes (B : Nat) (stream : List α) : List (List α) :=
  batcherAux B [] stream

/-!
Lemmas and claim theorems for the ingestion pipeline.
-/

/-- The sizes of the flushed batches are determined by the total number of
elements: full batches of `B`, then the non-zero remainder. -/
theorem batcherAux_map_length {α : Type} (B : Nat) :
    ∀ (ts batch : List α), batch.length < B →
    (batcherAux B batch ts).map List.length =
      List.replicate ((batch.length + ts.length) / B) B ++
        (if (batch.length + ts.length) % B = 0 then []
         else [(batch.length + ts.length) % B]) := by
  intro ts
  induction ts with
  | nil =>
    intro batch h
    by_cases hb : batch = []
    · subst hb
      simp [batcherAux]
    · have hne : batch.isEmpty = false := by
        simpa [List.isEmpty_iff] using hb
      have hlen : batch.length ≠ 0 := by
        simpa using hb
      simp [batcherAux, hne, Nat.div_eq_of_lt h, Nat.mod_eq_of_lt h, hlen]
  | cons t ts ih =>
    intro batch h
    by_cases hB : B ≤ (batch ++ [t]).length
    · have hEq : batch.length + 1 = B := by
        simp only [List.length_append, List.length_singleton] at hB
        omega
      have hB0 : 0 < B := by omega
      simp only [batcherAux, if_pos hB, List.map_cons]
      rw [ih [] (by simpa using hB0)]
      have hbt : (batch ++ [t]).length = B := by
        simp only [List.length_append, List.length_singleton]
        omega
      have h1 : batch.length + (t :: ts).length = ts.length + B := by
        simp only [List.length_cons]
        omega
      have h2 : (([] : List α).length + ts.length) = ts.length := by simp
      rw [hbt, h2, h1, Nat.add_div_right _ hB0, Nat.add_mod_right,
        List.replicate_succ]
      rfl
    · have h' : (batch ++ [t]).length < B := Nat.lt_of_not_le hB
      simp only [batcherAux, if_neg hB]
      rw [ih (batch ++ [t]) h']
      have h1 : (batch ++ [t]).length + ts.length = batch.length + (t :: ts).length := by
        simp only [List.length_append, List.length_singleton, List.length_cons,
          List.length_nil]
        omega
      rw [h1]

/-- The reference batches partition the whole input in order: seed batch
first, then the stream's elements. -/
theorem batcherAux_flatten {α : Type} (B : Nat) :
    ∀ (ts batch : List α), (batcherAux B batch ts).flatten = batch ++ ts := by
  intro ts
  induction ts with
  | nil =>
    intro batch
    by_cases hb : batch.isEmpty
    · have hnil : batch = [] := List.isEmpty_iff.mp hb
      simp [batcherAux, hb, hnil]
    · simp [batcherAux, hb]
  | cons t ts ih =>
    intro batch
    by_cases hB : B ≤ (batch ++ [t]).length
    · have hbat : batcherAux B batch (t :: ts) =
          (batch ++ [t]) :: batcherAux B [] ts := by
        simp only [batcherAux, if_pos hB]
      rw [hbat, List.flatten_cons, ih []]
      simp
    · have hbat : batcherAux B batch (t :: ts) =
          batcherAux B (batch ++ [t]) ts := by
        simp only [batcherAux, if_neg hB]
      rw [hbat, ih (batch ++ [t])]
      simp

/-- Against a store whose two bulk queries never fail, one flush issues
exactly the participant upsert then the message creation, and succeeds. -/
theorem send_batch_success {α ε : Type} (env : StoreEnv α ε)
    (hp : ∀ b, env.partsErr b = none) (hm : ∀ b, env.msgsErr b = none)
    (b : List α) :
    send_batch_to_neo4j env b =
      ([StoreOp.participants b, StoreOp.messages b], none) := by
  simp [send_batch_to_neo4j, hp b, hm b]

/-- Against an error-free store the receive loop completes successfully
and its issued operation trace is exactly the two bulk operations for each
batch of the reference batch sequence, in order. -/
theorem writerAux_success {α ε : Type} (env : StoreEnv α ε)
    (hp : ∀ b, env.partsErr b = none) (hm : ∀ b, env.msgsErr b = none)
    (B : Nat) :
    ∀ (stream batch : List α),
    (writerAux env B batch stream).1 =
      ((batcherAux B batch stream).map
        (fun b => [StoreOp.participants b, StoreOp.messages b])).flatten ∧
    (writerAux env B batch stream).2.2 = none := by
  intro stream
  induction stream with
  | nil =>
    intro batch
    by_cases hb : batch.isEmpty
    · constructor <;> simp [writerAux, batcherAux, hb]
    · have hs := send_batch_success env hp hm batch
      constructor
      · simp only [writerAux, hb, Bool.false_eq_true, if_false, hs]
        simp [batcherAux, hb]
      · simp [writerAux, hb, hs]
  | cons t ts ih =>
    intro batch
    have hbat : batcherAux B batch (t :: ts) =
        if B ≤ (batch ++ [t]).length then (batch ++ [t]) :: batcherAux B [] ts
        else batcherAux B (batch ++ [t]) ts := rfl
    by_cases hB : B ≤ (batch ++ [t]).length
    · have hs := send_batch_success env hp hm (batch ++ [t])
      constructor
      · simp only [writerAux, if_pos hB, hs]
        rw [hbat, if_pos hB, List.map_cons, List.flatten_cons, (ih []).1]
      · simp only [writerAux, if_pos hB, hs]
        exact (ih []).2
    · simp only [writerAux, if_neg hB]
      rw [hbat, if_neg hB]
      exact ih (batch ++ [t])

/-- C3: against an error-free store, `neo4j_writer` on a stream of
`M = q·B + r` threads with `0 ≤ r < B` completes successfully and issues
exactly two bulk operations per batch of `neo4jFlushes B stream`, in
order; those batches partition the stream in arrival order into exactly
`q` flushes of exactly `B` threads each, plus one final flush of `r`
threads when `r > 0` and none when `r = 0` (an empty stream performs no
flush at all). -/
theorem c3_batch_flush {α ε : Type} (env : StoreEnv α ε) (B q r : Nat)
    (stream : List α)
    (hp : ∀ b, env.partsErr b = none) (hm : ∀ b, env.msgsErr b = none)
    (hr : r < B) (hM : stream.length = q * B + r) :
    (neo4j_writer env B stream).2.2 = none ∧
    (neo4j_writer env B stream).1 =
      ((neo4jFlushes B stream).map
        (fun b => [StoreOp.participants b, StoreOp.messages b])).flatten ∧
    (neo4jFlushes B stream).flatten = stream ∧
    (neo4jFlushes B stream).map List.length =
      List.replicate q B ++ (if r = 0 then [] else [r]) := by
  have hB0 : 0 < B := Nat.lt_of_le_of_lt (Nat.zero_le r) hr
  have hsucc := writerAux_success env hp hm B stream []
  refine ⟨hsucc.2, hsucc.1, ?_, ?_⟩
  · simpa [neo4jFlushes] using batcherAux_flatten (α := α) B stream []
  · have h := batcherAux_map_length B stream [] (by simpa using hB0)
    simp only [neo4jFlushes]
    rw [h]
    have h1 : (([] : List α).length + stream.length) = B * q + r := by
      simp [hM, Nat.mul_comm]
    rw [h1, Nat.mul_add_div hB0, Nat.mul_add_mod,
      Nat.div_eq_of_lt hr, Nat.mod_eq_of_lt hr, Nat.add_zero]

/-- A store that never fails, for concrete runs. -/
def env0 : StoreEnv Nat Nat := ⟨fun _ => none, fun _ => none⟩

/-- Witness for C3: with `B = 2` and a stream of five threads
(`5 = 2·2 + 1`) under the error-free store, the writer succeeds, issues
the two bulk operations per flushed batch, and the flush sizes are
`[2, 2, 1]`. -/
theorem c3_witness :
    ((∀ b : List Nat, env0.partsErr b = none) ∧
     (∀ b : List Nat, env0.msgsErr b = none) ∧
     1 < 2 ∧ ([1, 2, 3, 4, 5] : List Nat).length = 2 * 2 + 1) ∧
    ((neo4j_writer env0 2 [1, 2, 3, 4, 5]).2.2 = none ∧
     (neo4j_writer env0 2 [1, 2, 3, 4, 5]).1 =
       ((neo4jFlushes 2 ([1, 2, 3, 4, 5] : List Nat)).map
         (fun b => [StoreOp.participants b, StoreOp.messages b])).flatten ∧
     (neo4jFlushes 2 ([1, 2, 3, 4, 5] : List Nat)).flatten = [1, 2, 3, 4, 5] ∧
     (neo4jFlushes 2 ([1, 2, 3, 4, 5] : List Nat)).map List.length =
       List.replicate 2 2 ++ (if 1 = 0 then [] else [1])) :=
  ⟨⟨fun _ => rfl, fun _ => rfl, by decide, by decide⟩,
    c3_batch_flush env0 2 2 1 [1, 2, 3, 4, 5] (fun _ => rfl) (fun _ => rfl)
      (by decide) (by decide)⟩

/-- C4: on a store failure the receive loop stops at the first failing
flush. All earlier flushes of the intended flush sequence succeeded and
issued their operations, the returned error is the failing flush's own
store error, the batch accumulator still holds the failing flush (never
cleared), and the issued operation trace ends exactly with the failing
flush's operations: nothing is retried and nothing later is issued. -/
theorem writerAux_error {α ε : Type} (env : StoreEnv α ε) (B : Nat) :
    ∀ (stream batch : List α) (e : ε),
    (writerAux env B batch stream).2.2 = some e →
    ∃ done fb rest,
      batcherAux B batch stream = done ++ fb :: rest ∧
      (∀ b ∈ done, (send_batch_to_neo4j env b).2 = none) ∧
      (send_batch_to_neo4j env fb).2 = some e ∧
      (writerAux env B batch stream).2.1 = fb ∧
      (writerAux env B batch stream).1 =
        (done.map (fun b => (send_batch_to_neo4j env b).1)).flatten ++
          (send_batch_to_neo4j env fb).1 := by
  intro stream
  induction stream with
  | nil =>
    intro batch e h
    by_cases hb : batch.isEmpty
    · simp [writerAux, hb] at h
    · simp only [writerAux, hb, Bool.false_eq_true, if_false] at h ⊢
      refine ⟨[], batch, [], ?_, by simp, h, rfl, by simp⟩
      simp only [batcherAux, hb, Bool.false_eq_true, if_false]
      rfl
  | cons t ts ih =>
    intro batch e h
    have hbat : batcherAux B batch (t :: ts) =
        if B ≤ (batch ++ [t]).length then (batch ++ [t]) :: batcherAux B [] ts
        else batcherAux B (batch ++ [t]) ts := rfl
    by_cases hB : B ≤ (batch ++ [t]).length
    · rcases hsb : send_batch_to_neo4j env (batch ++ [t]) with ⟨ops, oe⟩
      cases oe with
      | some e' =>
        simp only [writerAux, if_pos hB, hsb] at h ⊢
        obtain rfl : e' = e := by simpa using h
        refine ⟨[], batch ++ [t], batcherAux B [] ts, ?_, by simp, ?_, rfl, ?_⟩
        · rw [hbat, if_pos hB]
          rfl
        · rw [hsb]
        · simp [hsb]
      | none =>
        simp only [writerAux, if_pos hB, hsb] at h ⊢
        obtain ⟨done', fb, rest, hsplit, hdone, hfb, hfinal, hops⟩ := ih [] e h
        refine ⟨(batch ++ [t]) :: done', fb, rest, ?_, ?_, hfb, hfinal, ?_⟩
        · rw [hbat, if_pos hB, hsplit]
          rfl
        · intro b hbmem
          rcases List.mem_cons.mp hbmem with hbmem | hbmem
          · subst hbmem
            rw [hsb]
          · exact hdone b hbmem
        · simp only [List.map_cons, List.flatten_cons, hsb, hops,
            List.append_assoc]
    · simp only [writerAux, if_neg hB] at h ⊢
      obtain ⟨done', fb, rest, hsplit, hdone, hfb, hfinal, hops⟩ := ih (batch ++ [t]) e h
      refine ⟨done', fb, rest, ?_, hdone, hfb, hfinal, hops⟩
      rw [hbat, if_neg hB]
      exact hsplit

/-- C4: if either bulk store operation of a batch flush fails,
`neo4j_writer` returns that error: all earlier batches of the flush
sequence were flushed successfully, the failing batch issued no further
operation after the failure and is never retried, no operation is issued
for any later thread, and the batch accumulator still holds the failing
batch. -/
theorem c4_error_abort {α ε : Type} (env : StoreEnv α ε) (B : Nat)
    (stream : List α) (e : ε)
    (h : (neo4j_writer env B stream).2.2 = some e) :
    ∃ done fb rest,
      neo4jFlushes B stream = done ++ fb :: rest ∧
      (∀ b ∈ done, (send_batch_to_neo4j env b).2 = none) ∧
      (send_batch_to_neo4j env fb).2 = some e ∧
      (neo4j_writer env B stream).2.1 = fb ∧
      (neo4j_writer env B stream).1 =
        (done.map (fun b => (send_batch_to_neo4j env b).1)).flatten ++
          (send_batch_to_neo4j env fb).1 :=
  writerAux_error env B stream [] e h

/-- A concrete store behaviour: the participant query fails with error `9`
exactly on the batch `[3, 4]`; the message query never fails. -/
def envW : StoreEnv Nat Nat :=
  ⟨fun b => if b = [3, 4] then some 9 else none, fun _ => none⟩

/-- Witness for C4: with bound `2` and stream `[1, 2, 3, 4, 5]` under
`envW`, the run fails with error `9` on the second flush. -/
theorem c4_witness :
    (neo4j_writer envW 2 [1, 2, 3, 4, 5]).2.2 = some 9 ∧
    (∃ done fb rest,
      neo4jFlushes 2 ([1, 2, 3, 4, 5] : List Nat) = done ++ fb :: rest ∧
      (∀ b ∈ done, (send_batch_to_neo4j envW b).2 = none) ∧
      (send_batch_to_neo4j envW fb).2 = some 9 ∧
      (neo4j_writer envW 2 [1, 2, 3, 4, 5]).2.1 = fb ∧
      (neo4j_writer envW 2 [1, 2, 3, 4, 5]).1 =
        (done.map (fun b => (send_batch_to_neo4j envW b).1)).flatten ++
          (send_batch_to_neo4j envW fb).1) :=
  ⟨by decide, c4_error_abort envW 2 [1, 2, 3, 4, 5] 9 (by decide)⟩

/-!
Lemmas about the two passes of `parse_file`.
-/

/-- Membership after a `HashSet` insert. -/
theorem mem_insertP (ps : List Participant) (p q : Participant) :
    q ∈ insertP ps p ↔ q ∈ ps ∨ q = p := by
  by_cases h : p ∈ ps
  · simp only [insertP, if_pos h]
    constructor
    · exact fun hq => Or.inl hq
    · rintro (hq | rfl)
      · exact hq
      · exact h
  · simp [insertP, if_neg h]

/-- A `HashSet` insert keeps the list duplicate-free. -/
theorem nodup_insertP (ps : List Participant) (p : Participant)
    (h : ps.Nodup) : (insertP ps p).Nodup := by
  by_cases hp : p ∈ ps
  · simpa [insertP, if_pos hp] using h
  · simp [insertP, if_neg hp, List.nodup_append, h, hp]

/-- The first pass fails (the Rust `unwrap()` panics) whenever some block
has no sender element, whatever the accumulator holds. -/
theorem firstPassAux_error (bs : List MessageBlock)
    (hex : ∃ b ∈ bs, b.sender = none) :
    ∀ ps me, firstPassAux bs ps me = .error ParseErr.missingSender := by
  induction bs with
  | nil => simp at hex
  | cons b bs ih =>
    intro ps me
    rcases hex with ⟨b', hb', hsnd⟩
    rcases List.mem_cons.mp hb' with rfl | hb'
    · simp [firstPassAux, hsnd]
    · cases hsender : b.sender with
      | none => simp [firstPassAux, hsender]
      | some se =>
        simp only [firstPassAux, hsender]
        exact ih ⟨b', hb', hsnd⟩ _ _

/-- If the first pass succeeds, every block has a sender element. -/
theorem firstPassAux_sender_isSome (bs : List MessageBlock) :
    ∀ ps me out, firstPassAux bs ps me = .ok out →
    ∀ b ∈ bs, b.sender.isSome := by
  induction bs with
  | nil => simp
  | cons b bs ih =>
    intro ps me out h b' hb'
    cases hsender : b.sender with
    | none => simp [firstPassAux, hsender] at h
    | some se =>
      simp only [firstPassAux, hsender] at h
      rcases List.mem_cons.mp hb' with rfl | hb'
      · simp [hsender]
      · exact ih _ _ _ h b' hb'

/-- The participant list produced by the first pass holds exactly the
seed participants and those denoted by the blocks' sender elements. -/
theorem firstPassAux_mem (bs : List MessageBlock) :
    ∀ ps me ps' me', firstPassAux bs ps me = .ok (ps', me') →
    ∀ q, q ∈ ps' ↔ q ∈ ps ∨ ∃ b ∈ bs, blockParticipant b = some q := by
  induction bs with
  | nil =>
    intro ps me ps' me' h q
    simp only [firstPassAux, Except.ok.injEq, Prod.mk.injEq] at h
    simp [h.1.symm]
  | cons b bs ih =>
    intro ps me ps' me' h q
    cases hsender : b.sender with
    | none => simp [firstPassAux, hsender] at h
    | some se =>
      simp only [firstPassAux, hsender] at h
      rw [ih _ _ _ _ h q, mem_insertP]
      constructor
      · rintro (⟨hq | rfl⟩ | ⟨b', hb', hbp⟩)
        · exact Or.inl hq
        · exact Or.inr ⟨b, List.mem_cons_self b bs, by simp [blockParticipant, hsender]⟩
        · exact Or.inr ⟨b', List.mem_cons_of_mem b hb', hbp⟩
      · rintro (hq | ⟨b', hb', hbp⟩)
        · exact Or.inl (Or.inl hq)
        · rcases List.mem_cons.mp hb' with rfl | hb'
          · refine Or.inl (Or.inr ?_)
            simp only [blockParticipant, hsender, Option.map_some',
              Option.some.injEq] at hbp
            exact hbp.symm
          · exact Or.inr ⟨b', hb', hbp⟩

/-- The participant list produced by the first pass is duplicate-free. -/
theorem firstPassAux_nodup (bs : List MessageBlock) :
    ∀ ps me ps' me', ps.Nodup → firstPassAux bs ps me = .ok (ps', me') →
    ps'.Nodup := by
  induction bs with
  | nil =>
    intro ps me ps' me' hnd h
    simp only [firstPassAux, Except.ok.injEq, Prod.mk.injEq] at h
    exact h.1 ▸ hnd
  | cons b bs ih =>
    intro ps me ps' me' hnd h
    cases hsender : b.sender with
    | none => simp [firstPassAux, hsender] at h
    | some se =>
      simp only [firstPassAux, hsender] at h
      exact ih _ _ _ _ (nodup_insertP _ _ hnd) h

/-- A successful `mapExcept` yields one output per input. -/
theorem mapExcept_length {α β : Type} (f : α → Except ParseErr β) :
    ∀ (l : List α) (ys : List β), mapExcept f l = .ok ys →
    ys.length = l.length := by
  intro l
  induction l with
  | nil =>
    intro ys h
    simp only [mapExcept, Except.ok.injEq] at h
    simp [h.symm]
  | cons a as ih =>
    intro ys h
    cases hfa : f a with
    | error e => simp [mapExcept, hfa] at h
    | ok b =>
      simp only [mapExcept, hfa] at h
      cases hrec : mapExcept f as with
      | error e => simp [hrec] at h
      | ok bs =>
        simp only [hrec, Except.ok.injEq] at h
        simp [h.symm, ih bs hrec]

/-- A successful `mapExcept` succeeds element-wise, preserving positions. -/
theorem mapExcept_get {α β : Type} (f : α → Except ParseErr β) :
    ∀ (l : List α) (ys : List β), mapExcept f l = .ok ys →
    ∀ (i : Nat) (h : i < l.length) (h' : i < ys.length),
      f (l.get ⟨i, h⟩) = .ok (ys.get ⟨i, h'⟩) := by
  intro l
  induction l with
  | nil => intro ys h i hi; simp at hi
  | cons a as ih =>
    intro ys h i hi hi'
    cases hfa : f a with
    | error e => simp [mapExcept, hfa] at h
    | ok b =>
      simp only [mapExcept, hfa] at h
      cases hrec : mapExcept f as with
      | error e => simp [hrec] at h
      | ok bs =>
        simp only [hrec, Except.ok.injEq] at h
        subst h
        cases i with
        | zero => simpa using hfa
        | succ j =>
          simpa using ih bs hrec j (by simpa using hi) (by simpa using hi')

/-- Every output of a successful `mapExcept` comes from some input. -/
theorem mapExcept_mem {α β : Type} (f : α → Except ParseErr β) :
    ∀ (l : List α) (ys : List β), mapExcept f l = .ok ys →
    ∀ y ∈ ys, ∃ x ∈ l, f x = .ok y := by
  intro l
  induction l with
  | nil =>
    intro ys h y hy
    simp only [mapExcept, Except.ok.injEq] at h
    subst h
    simp at hy
  | cons a as ih =>
    intro ys h y hy
    cases hfa : f a with
    | error e => simp [mapExcept, hfa] at h
    | ok b =>
      simp only [mapExcept, hfa] at h
      cases hrec : mapExcept f as with
      | error e => simp [hrec] at h
      | ok bs =>
        simp only [hrec, Except.ok.injEq] at h
        subst h
        rcases List.mem_cons.mp hy with rfl | hy
        · exact ⟨a, List.mem_cons_self a as, hfa⟩
        · obtain ⟨x, hx, hfx⟩ := ih bs hrec y hy
          exact ⟨x, List.mem_cons_of_mem a hx, hfx⟩

/-- Decomposition of a successful `parse_file` run into its two passes. -/
theorem parse_file_ok (pf : String → Option Int) (doc : Document) (t : Thread)
    (h : parse_file pf doc = .ok t) :
    ∃ ps meOpt msgs,
      firstPass doc.blocks = .ok (ps, meOpt) ∧
      mapExcept (mkMessage pf ps (meOpt.getD meDefault)) doc.blocks = .ok msgs ∧
      t = Thread.mk msgs ps (parse_labels doc.tags) msgs.length ∧
      resolvedSelf doc = meOpt.getD meDefault := by
  cases hfp : firstPass doc.blocks with
  | error e => simp [parse_file, hfp] at h
  | ok pr =>
    obtain ⟨ps, meOpt⟩ := pr
    cases hm : mapExcept (mkMessage pf ps (meOpt.getD meDefault)) doc.blocks with
    | error e => simp [parse_file, hfp, hm] at h
    | ok msgs =>
      refine ⟨ps, meOpt, msgs, hfp ▸ rfl, hm, ?_, ?_⟩
      · simp only [parse_file, hfp, hm, Except.ok.injEq] at h
        exact h.symm
      · simp [resolvedSelf, firstPass] at hfp ⊢
        simp [hfp]

/-- The message built from a block with a sender element, spelled out. -/
theorem mkMessage_ok (pf : String → Option Int) (ps : List Participant)
    (me : Participant) (b : MessageBlock) (se : SenderElem)
    (hse : b.sender = some se) :
    mkMessage pf ps me b = .ok (Message.mk
      ((ps.find? (fun p => p.phone == extractPhone se)).getD me)
      (if (ps.find? (fun p => p.phone == extractPhone se)).getD me = me
        then ps.filter (fun p => p ≠ me) else [me])
      ((b.dtTitle.bind pf).getD 0)
      ((b.content).getD "")) := by
  simp [mkMessage, hse]

/-- Shape of every message of a successfully parsed thread: it comes from a
block with a sender element, its sender is the phone lookup in the thread's
participant list (defaulting to self), and its recipients follow the
direction-inference policy. -/
theorem parse_file_message_shape (pf : String → Option Int) (doc : Document)
    (t : Thread) (h : parse_file pf doc = .ok t) :
    ∀ m ∈ t.messages, ∃ b ∈ doc.blocks, ∃ se, b.sender = some se ∧
      m.sender = (t.participants.find?
        (fun p => p.phone == extractPhone se)).getD (resolvedSelf doc) ∧
      m.recipients = (if m.sender = resolvedSelf doc
        then t.participants.filter (fun p => p ≠ resolvedSelf doc)
        else [resolvedSelf doc]) := by
  obtain ⟨ps, meOpt, msgs, hfp, hm, ht, hself⟩ := parse_file_ok pf doc t h
  intro m hmem
  have hmem' : m ∈ msgs := by rw [ht] at hmem; exact hmem
  obtain ⟨b, hb, hmk⟩ := mapExcept_mem _ doc.blocks msgs hm m hmem'
  cases hse : b.sender with
  | none => simp [mkMessage, hse] at hmk
  | some se =>
    rw [mkMessage_ok pf ps (meOpt.getD meDefault) b se hse] at hmk
    have hmk' := (Except.ok.injEq _ _).mp hmk
    refine ⟨b, hb, se, hse, ?_, ?_⟩
    · rw [← hmk', ht, hself]
    · rw [← hmk', ht, hself]

/-- C2: for every message of a parsed thread, a message sent by the
resolved self participant has as recipients exactly the participant list
with self filtered out, and a message sent by anyone else has exactly the
one-element recipient list `[self]`. -/
theorem c2_direction_inference (pf : String → Option Int) (doc : Document)
    (t : Thread) (h : parse_file pf doc = .ok t) :
    ∀ m ∈ t.messages,
      (m.sender = resolvedSelf doc →
        m.recipients = t.participants.filter (fun p => p ≠ resolvedSelf doc)) ∧
      (m.sender ≠ resolvedSelf doc →
        m.recipients = [resolvedSelf doc]) := by
  intro m hmem
  obtain ⟨b, hb, se, hse, hsender, hrecips⟩ :=
    parse_file_message_shape pf doc t h m hmem
  constructor
  · intro hself
    rw [hrecips, if_pos hself]
  · intro hnself
    rw [hrecips, if_neg hnself]

/-- Equality of `Except` values is decidable when both components' is. -/
instance exceptDecEq {ε α : Type} [DecidableEq ε] [DecidableEq α] :
    DecidableEq (Except ε α)
  | .error e, .error f =>
    if h : e = f then .isTrue (by rw [h]) else .isFalse (by simp [h])
  | .error _, .ok _ => .isFalse (by simp)
  | .ok _, .error _ => .isFalse (by simp)
  | .ok x, .ok y =>
    if h : x = y then .isTrue (by rw [h]) else .isFalse (by simp [h])

/-- A timestamp parser that always fails, for concrete runs. -/
def wPf : String → Option Int := fun _ => none

/-- A document with a self-marker block (phone 1) and a peer block
(phone 2). -/
def wDoc2 : Document :=
  ⟨[⟨some ⟨some "tel:1", some "Me"⟩, none, none⟩,
    ⟨some ⟨some "tel:2", some "A"⟩, none, none⟩], none⟩

/-- The thread `parse_file` produces from `wDoc2`. -/
def wThread2 : Thread :=
  ⟨[Message.mk ⟨"Me", "1"⟩ [⟨"A", "2"⟩] 0 "",
    Message.mk ⟨"A", "2"⟩ [⟨"Me", "1"⟩] 0 ""],
   [⟨"Me", "1"⟩, ⟨"A", "2"⟩], [], 2⟩

/-- Witness for C2 on `wDoc2`: the self-sent message goes to all others,
the inbound one goes to `[self]`. -/
theorem c2_witness :
    parse_file wPf wDoc2 = Except.ok wThread2 ∧
    ∀ m ∈ wThread2.messages,
      (m.sender = resolvedSelf wDoc2 →
        m.recipients = wThread2.participants.filter
          (fun p => p ≠ resolvedSelf wDoc2)) ∧
      (m.sender ≠ resolvedSelf wDoc2 →
        m.recipients = [resolvedSelf wDoc2]) :=
  ⟨by decide, c2_direction_inference wPf wDoc2 wThread2 (by decide)⟩

/-- C7: the sender of a parsed message never appears among its own
recipients. -/
theorem c7_sender_not_recipient (pf : String → Option Int) (doc : Document)
    (t : Thread) (h : parse_file pf doc = .ok t) :
    ∀ m ∈ t.messages, m.sender ∉ m.recipients := by
  intro m hmem
  obtain ⟨b, hb, se, hse, hsender, hrecips⟩ :=
    parse_file_message_shape pf doc t h m hmem
  by_cases hself : m.sender = resolvedSelf doc
  · rw [hrecips, if_pos hself]
    intro hmemf
    have hne := (List.mem_filter.mp hmemf).2
    simp only [ne_eq, decide_not, Bool.not_eq_true', decide_eq_false_iff_not] at hne
    exact hne hself
  · rw [hrecips, if_neg hself]
    simp [hself]

/-- Witness for C7 on `wDoc2`. -/
theorem c7_witness :
    parse_file wPf wDoc2 = Except.ok wThread2 ∧
    ∀ m ∈ wThread2.messages, m.sender ∉ m.recipients :=
  ⟨by decide, c7_sender_not_recipient wPf wDoc2 wThread2 (by decide)⟩

/-- A document whose single block is the self marker itself. -/
def cexDoc8 : Document := ⟨[⟨some ⟨some "tel:1", some "Me"⟩, none, none⟩], none⟩

/-- The thread `parse_file` produces from `cexDoc8`: its one message has an
empty recipient list. -/
def cexThread8 : Thread :=
  ⟨[Message.mk ⟨"Me", "1"⟩ [] 0 ""], [⟨"Me", "1"⟩], [], 1⟩

/-- Counterexample to C8 as stated: in a thread whose resolved participant
set contains only the self participant, the self-sent message's recipients
list is empty, not non-empty. -/
theorem c8_counterexample :
    parse_file wPf cexDoc8 = Except.ok cexThread8 ∧
    Message.mk ⟨"Me", "1"⟩ [] 0 "" ∈ cexThread8.messages ∧
    (Message.mk ⟨"Me", "1"⟩ [] 0 "").recipients = [] :=
  ⟨by decide, by decide, rfl⟩

/-- C8 amended: a parsed message's recipients list is empty exactly when
its sender is the resolved self participant and every thread participant
equals self; in every other case it is non-empty. -/
theorem c8_recipients_empty_iff (pf : String → Option Int) (doc : Document)
    (t : Thread) (h : parse_file pf doc = .ok t) :
    ∀ m ∈ t.messages,
      m.recipients = [] ↔
        (m.sender = resolvedSelf doc ∧
          ∀ p ∈ t.participants, p = resolvedSelf doc) := by
  intro m hmem
  obtain ⟨b, hb, se, hse, hsender, hrecips⟩ :=
    parse_file_message_shape pf doc t h m hmem
  by_cases hself : m.sender = resolvedSelf doc
  · rw [hrecips, if_pos hself]
    constructor
    · intro hnil
      refine ⟨hself, ?_⟩
      intro p hp
      by_contra hne
      have hmemf : p ∈ t.participants.filter (fun p => p ≠ resolvedSelf doc) :=
        List.mem_filter.mpr ⟨hp, by simpa using hne⟩
      rw [hnil] at hmemf
      simp at hmemf
    · rintro ⟨-, hall⟩
      rw [List.filter_eq_nil_iff]
      intro p hp
      simp [hall p hp]
  · rw [hrecips, if_neg hself]
    simp [hself]

/-- Witness for the amended C8 on `cexDoc8`: the recipients list of the
self-sent message is empty and indeed all participants equal self. -/
theorem c8_witness :
    parse_file wPf cexDoc8 = Except.ok cexThread8 ∧
    ∀ m ∈ cexThread8.messages,
      m.recipients = [] ↔
        (m.sender = resolvedSelf cexDoc8 ∧
          ∀ p ∈ cexThread8.participants, p = resolvedSelf cexDoc8) :=
  ⟨by decide, c8_recipients_empty_iff wPf cexDoc8 cexThread8 (by decide)⟩

/-- C9: a parsed thread has one message per block, in order, and a block
whose timestamp title is absent or unparseable still yields its message,
with the epoch-zero default timestamp. -/
theorem c9_timestamp_default (pf : String → Option Int) (doc : Document)
    (t : Thread) (h : parse_file pf doc = .ok t) :
    t.messages.length = doc.blocks.length ∧
    ∀ (i : Nat) (hb : i < doc.blocks.length) (hm : i < t.messages.length),
      (doc.blocks.get ⟨i, hb⟩).dtTitle.bind pf = none →
      (t.messages.get ⟨i, hm⟩).timestamp = 0 := by
  obtain ⟨ps, meOpt, msgs, hfp, hmap, ht, hself⟩ := parse_file_ok pf doc t h
  subst ht
  refine ⟨mapExcept_length _ doc.blocks msgs hmap, ?_⟩
  intro i hb hm hnone
  have hget := mapExcept_get _ doc.blocks msgs hmap i hb hm
  simp only [List.get_eq_getElem] at hget hnone ⊢
  cases hse : (doc.blocks[i]).sender with
  | none => simp [mkMessage, hse] at hget
  | some se =>
    rw [mkMessage_ok pf ps (meOpt.getD meDefault) _ se hse] at hget
    have hmk := (Except.ok.injEq _ _).mp hget
    rw [← hmk]
    simp [hnone]

/-- The fn/tel document used by the C9 witness: one block with a sender but
an unparseable timestamp title. -/
def wDoc9 : Document :=
  ⟨[⟨some ⟨some "tel:1", some "A"⟩, some "not a date", none⟩], none⟩

/-- The thread parsed from `wDoc9`. -/
def wThread9 : Thread :=
  ⟨[Message.mk ⟨"A", "1"⟩ [⟨"Me", "Unknown"⟩] 0 ""], [⟨"A", "1"⟩], [], 1⟩

/-- Witness for C9 on `wDoc9`: the message is emitted with timestamp 0. -/
theorem c9_witness :
    parse_file wPf wDoc9 = Except.ok wThread9 ∧
    wThread9.messages.length = wDoc9.blocks.length ∧
    ∀ (i : Nat) (hb : i < wDoc9.blocks.length) (hm : i < wThread9.messages.length),
      (wDoc9.blocks.get ⟨i, hb⟩).dtTitle.bind wPf = none →
      (wThread9.messages.get ⟨i, hm⟩).timestamp = 0 :=
  ⟨by decide, c9_timestamp_default wPf wDoc9 wThread9 (by decide)⟩

/-- Every participant a successful first pass denotes from a block is in
the produced participant list. -/
theorem firstPass_block_mem (bs : List MessageBlock) (ps : List Participant)
    (meOpt : Option Participant) (hfp : firstPass bs = .ok (ps, meOpt)) :
    ∀ b ∈ bs, ∀ se, b.sender = some se →
      (⟨extractName se, extractPhone se⟩ : Participant) ∈ ps := by
  intro b hb se hse
  rw [firstPassAux_mem bs [] none ps meOpt hfp]
  exact Or.inr ⟨b, hb, by simp [blockParticipant, hse]⟩

/-- In a parsed thread the phone lookup of any block's sender always
succeeds: the first pass inserted a participant with that block's phone. -/
theorem parse_file_lookup_isSome (pf : String → Option Int) (doc : Document)
    (t : Thread) (h : parse_file pf doc = .ok t) :
    ∀ b ∈ doc.blocks, ∀ se, b.sender = some se →
      (t.participants.find? (fun p => p.phone == extractPhone se)).isSome := by
  obtain ⟨ps, meOpt, msgs, hfp, hmap, ht, hself⟩ := parse_file_ok pf doc t h
  subst ht
  intro b hb se hse
  have hmem := firstPass_block_mem doc.blocks ps meOpt hfp b hb se hse
  rw [List.find?_isSome]
  exact ⟨⟨extractName se, extractPhone se⟩, hmem, by simp⟩

/-- The sender of every parsed message is in the thread's participant
list: the lookup never falls back to the self participant. -/
theorem parse_file_sender_mem (pf : String → Option Int) (doc : Document)
    (t : Thread) (h : parse_file pf doc = .ok t) :
    ∀ m ∈ t.messages, m.sender ∈ t.participants := by
  intro m hmem
  obtain ⟨b, hb, se, hse, hsender, hrecips⟩ :=
    parse_file_message_shape pf doc t h m hmem
  have hsome := parse_file_lookup_isSome pf doc t h b hb se hse
  obtain ⟨q, hq⟩ := Option.isSome_iff_exists.mp hsome
  rw [hsender, hq, Option.getD_some]
  exact List.mem_of_find?_eq_some hq

/-- C10: in the second pass the sender lookup by phone always succeeds —
the first pass already inserted a participant carrying that block's
phone — so the fallback to the self participant is never taken and every
message's sender is drawn from the first pass's participant list. -/
theorem c10_sender_lookup_total (pf : String → Option Int) (doc : Document)
    (t : Thread) (h : parse_file pf doc = .ok t) :
    (∀ b ∈ doc.blocks, ∀ se, b.sender = some se →
      (t.participants.find? (fun p => p.phone == extractPhone se)).isSome) ∧
    (∀ m ∈ t.messages, m.sender ∈ t.participants) :=
  ⟨parse_file_lookup_isSome pf doc t h, parse_file_sender_mem pf doc t h⟩

/-- Witness for C10 on `wDoc2`. -/
theorem c10_witness :
    parse_file wPf wDoc2 = Except.ok wThread2 ∧
    ((∀ b ∈ wDoc2.blocks, ∀ se, b.sender = some se →
      (wThread2.participants.find? (fun p => p.phone == extractPhone se)).isSome) ∧
    (∀ m ∈ wThread2.messages, m.sender ∈ wThread2.participants)) :=
  ⟨by decide, c10_sender_lookup_total wPf wDoc2 wThread2 (by decide)⟩

/-- A document with one block whose sender is a plain peer. -/
def cexDoc5 : Document := ⟨[⟨some ⟨some "tel:1", some "A"⟩, none, none⟩], none⟩

/-- The thread parsed from `cexDoc5`: the synthesized self participant is
the message's recipient but is not in the participant list. -/
def cexThread5 : Thread :=
  ⟨[Message.mk ⟨"A", "1"⟩ [⟨"Me", "Unknown"⟩] 0 ""], [⟨"A", "1"⟩], [], 1⟩

/-- Counterexample to C5 as stated: in `cexDoc5` the self participant was
synthesized, is the recipient of the only message, and is not present in
the thread's participant set. -/
theorem c5_counterexample :
    parse_file wPf cexDoc5 = Except.ok cexThread5 ∧
    Message.mk ⟨"A", "1"⟩ [⟨"Me", "Unknown"⟩] 0 "" ∈ cexThread5.messages ∧
    (⟨"Me", "Unknown"⟩ : Participant) ∈
      (Message.mk ⟨"A", "1"⟩ [⟨"Me", "Unknown"⟩] 0 "").recipients ∧
    (⟨"Me", "Unknown"⟩ : Participant) ∉ cexThread5.participants :=
  ⟨by decide, by decide, by decide, by decide⟩

/-- C5 amended: every participant referenced by a parsed message is in the
thread's participant set or is the resolved self participant; the sender
always is in the set, and only a recipient can be the self participant
without being in the set (which happens when self was synthesized). -/
theorem c5_referenced_participants (pf : String → Option Int) (doc : Document)
    (t : Thread) (h : parse_file pf doc = .ok t) :
    ∀ m ∈ t.messages, m.sender ∈ t.participants ∧
      ∀ p ∈ m.recipients, p ∈ t.participants ∨ p = resolvedSelf doc := by
  intro m hmem
  refine ⟨parse_file_sender_mem pf doc t h m hmem, ?_⟩
  obtain ⟨b, hb, se, hse, hsender, hrecips⟩ :=
    parse_file_message_shape pf doc t h m hmem
  intro p hp
  rw [hrecips] at hp
  by_cases hself : m.sender = resolvedSelf doc
  · rw [if_pos hself] at hp
    exact Or.inl (List.mem_filter.mp hp).1
  · rw [if_neg hself] at hp
    exact Or.inr (List.mem_singleton.mp hp)

/-- Witness for the amended C5 on `wDoc2`. -/
theorem c5_witness :
    parse_file wPf wDoc2 = Except.ok wThread2 ∧
    ∀ m ∈ wThread2.messages, m.sender ∈ wThread2.participants ∧
      ∀ p ∈ m.recipients, p ∈ wThread2.participants ∨ p = resolvedSelf wDoc2 :=
  ⟨by decide, c5_referenced_participants wPf wDoc2 wThread2 (by decide)⟩

/-- C6: a document in which some message block has no sender element at
all makes `parse_file` fail for the whole document (the Rust `unwrap()`
aborts): no thread is emitted and the block is not silently dropped. -/
theorem c6_missing_sender_fatal (pf : String → Option Int) (doc : Document)
    (hex : ∃ b ∈ doc.blocks, b.sender = none) :
    parse_file pf doc = .error ParseErr.missingSender := by
  have herr := firstPassAux_error doc.blocks hex [] none
  simp [parse_file, firstPass, herr]

/-- A document with a well-formed first block and a second block carrying
no sender element. -/
def wDoc6 : Document :=
  ⟨[⟨some ⟨some "tel:1", some "A"⟩, none, none⟩, ⟨none, none, none⟩], none⟩

/-- Witness for C6 on `wDoc6`. -/
theorem c6_witness :
    (∃ b ∈ wDoc6.blocks, b.sender = none) ∧
    parse_file wPf wDoc6 = Except.error ParseErr.missingSender :=
  ⟨by decide, c6_missing_sender_fatal wPf wDoc6 (by decide)⟩

/-- Two blocks with the same phone and different display names. -/
def cexDoc1 : Document :=
  ⟨[⟨some ⟨some "tel:1", some "A"⟩, none, none⟩,
    ⟨some ⟨some "tel:1", some "B"⟩, none, none⟩], none⟩

/-- The thread parsed from `cexDoc1`: two participant entries for the one
distinct identifier, because the set is keyed on the whole
`(name, phone)` pair. -/
def cexThread1 : Thread :=
  ⟨[Message.mk ⟨"A", "1"⟩ [⟨"Me", "Unknown"⟩] 0 "",
    Message.mk ⟨"A", "1"⟩ [⟨"Me", "Unknown"⟩] 0 ""],
   [⟨"A", "1"⟩, ⟨"B", "1"⟩], [], 2⟩

/-- Counterexample to C1 as stated: `cexDoc1` references exactly one
distinct identifier yet the resolved participant set has two entries,
because the two blocks carry different display names. -/
theorem c1_counterexample :
    parse_file wPf cexDoc1 = Except.ok cexThread1 ∧
    (documentIdentifiers cexDoc1).length = 1 ∧
    cexThread1.participants.length = 2 :=
  ⟨by decide, by decide, by decide⟩

/-- C1 amended: the resolved participant set of a parsed thread has
exactly one entry per distinct `(display name, identifier)` pair referenced
by the document's message blocks (not per distinct identifier alone). -/
theorem c1_participants_card (pf : String → Option Int) (doc : Document)
    (t : Thread) (h : parse_file pf doc = .ok t) :
    t.participants.length =
      ((doc.blocks.filterMap blockParticipant).dedup).length := by
  obtain ⟨ps, meOpt, msgs, hfp, hmap, ht, hself⟩ := parse_file_ok pf doc t h
  subst ht
  have hnd : ps.Nodup :=
    firstPassAux_nodup doc.blocks [] none ps meOpt List.nodup_nil hfp
  have hext : ∀ q, q ∈ ps ↔ q ∈ (doc.blocks.filterMap blockParticipant).dedup := by
    intro q
    rw [firstPassAux_mem doc.blocks [] none ps meOpt hfp q, List.mem_dedup,
      List.mem_filterMap]
    simp
  have hperm : ps.Perm ((doc.blocks.filterMap blockParticipant).dedup) :=
    (List.perm_ext_iff_of_nodup hnd (List.nodup_dedup _)).mpr hext
  simpa using hperm.length_eq

/-- Witness for the amended C1 on `cexDoc1`: two distinct
`(name, identifier)` pairs, two participant entries. -/
theorem c1_witness :
    parse_file wPf cexDoc1 = Except.ok cexThread1 ∧
    cexThread1.participants.length =
      ((cexDoc1.blocks.filterMap blockParticipant).dedup).length :=
  ⟨by decide, c1_participants_card wPf cexDoc1 cexThread1 (by decide)⟩
